import Mathlib

/-!
# Quotation server and client (desafio-client-server-api)

Shallow embedding of `Server/server.go` and `Client/client.go`.

The two programs are glue around the Go standard library, so the embedding has
two layers:

* the library calls the programs make (`encoding/json`, the `http.ResponseWriter`
  protocol, the default `ServeMux`, `os.Create`/`WriteString`) are modelled as
  executable functions that follow the library's documented behaviour;
* the functions of the repository (`BuscaCotacaoHandler`, `BuscaCotacao`,
  `CotacaoWriteDB`, `insertCotacao`, both `main`s) are translated statement by
  statement on top of them, with the outside world (upstream reply, database
  outcome, file system outcome) passed in as an explicit environment.
-/

set_option maxRecDepth 1000000

namespace Desafio

/-! ## encoding/json: values -/

/-- A JSON document as the decoder sees it. Numbers keep their literal text;
object members keep their order and their duplicates. -/
inductive JVal where
  | null
  | bool (b : Bool)
  | num (lit : List Char)
  | str (s : String)
  | arr (xs : List JVal)
  | obj (ms : List (String × JVal))

/-! ## encoding/json: string encoding (`appendString`, with HTML escaping as
`json.Marshal` uses it) -/

/-- The table `hex` of encode.go. -/
def hexDigit (n : Nat) : Char :=
  "0123456789abcdef".data.getD n '0'

/-- One rune of `appendString`: what the encoder appends for the rune `c`. -/
def escapeRune (c : Char) : List Char :=
  if c = '\\' ∨ c = '"' then ['\\', c]
  else if c = '\x08' then ['\\', 'b']
  else if c = '\x0c' then ['\\', 'f']
  else if c = '\n' then ['\\', 'n']
  else if c = '\r' then ['\\', 'r']
  else if c = '\t' then ['\\', 't']
  else if c.toNat < 0x20 ∨ c = '<' ∨ c = '>' ∨ c = '&' then
    ['\\', 'u', '0', '0', hexDigit (c.toNat / 16), hexDigit (c.toNat % 16)]
  else if c.toNat = 0x2028 ∨ c.toNat = 0x2029 then
    ['\\', 'u', '2', '0', '2', hexDigit (c.toNat % 16)]
  else [c]

/-- The text between the quotes of an encoded string. -/
def escapeRunes : List Char → List Char
  | [] => []
  | c :: cs => escapeRune c ++ escapeRunes cs

/-- The function `appendString`: a JSON string literal for `s`. -/
def appendString (s : String) : List Char :=
  '"' :: (escapeRunes s.data ++ ['"'])

/-! ## encoding/json: string decoding (`unquoteBytes`) -/

/-- Value of a hexadecimal digit, as in `getu4`. -/
def hexVal (c : Char) : Option Nat :=
  if '0' ≤ c ∧ c ≤ '9' then some (c.toNat - '0'.toNat)
  else if 'a' ≤ c ∧ c ≤ 'f' then some (c.toNat - 'a'.toNat + 10)
  else if 'A' ≤ c ∧ c ≤ 'F' then some (c.toNat - 'A'.toNat + 10)
  else none

/-- The function `getu4` on the four characters after a backslash and `u`. -/
def getu4 (a b c d : Char) : Option Nat :=
  match hexVal a, hexVal b, hexVal c, hexVal d with
  | some x, some y, some z, some w => some (((x * 16 + y) * 16 + z) * 16 + w)
  | _, _, _, _ => none

/-- The predicate `utf16.IsSurrogate`. -/
def isSurrogate (r : Nat) : Bool :=
  0xd800 ≤ r ∧ r < 0xe000

/-- The function `utf16.DecodeRune`; `0xFFFD` is `unicode.ReplacementChar`. -/
def decodeSurrogates (r1 r2 : Nat) : Nat :=
  if 0xd800 ≤ r1 ∧ r1 < 0xdc00 ∧ 0xdc00 ≤ r2 ∧ r2 < 0xe000 then
    (r1 - 0xd800) * 1024 + (r2 - 0xdc00) + 0x10000
  else 0xFFFD

/-- The single-character escapes of `unquoteBytes`. -/
def unescapeRune (c : Char) : Option Char :=
  if c = '"' ∨ c = '\\' ∨ c = '/' then some c
  else if c = 'b' then some '\x08'
  else if c = 'f' then some '\x0c'
  else if c = 'n' then some '\n'
  else if c = 'r' then some '\r'
  else if c = 't' then some '\t'
  else none

/-- The rune a second escape pairs with a leading surrogate `r1`, when the text
starts with a well-formed escape that completes the pair. -/
def pairedRune (r1 : Nat) : List Char → Option Nat
  | '\\' :: 'u' :: a :: b :: c :: d :: _ =>
    match getu4 a b c d with
    | some r2 => if decodeSurrogates r1 r2 = 0xFFFD then none else some (decodeSurrogates r1 r2)
    | none => none
  | _ => none

/-- The function `unquoteBytes` on the text between the quotes. The argument
`skip` counts characters of an escape that were already consumed. -/
def unquoteAux : Nat → List Char → Option (List Char)
  | _, [] => some []
  | skip + 1, _ :: rest => unquoteAux skip rest
  | 0, c :: rest =>
    if c = '\\' then
      match rest with
      | [] => none
      | 'u' :: a :: b :: c4 :: d :: rest2 =>
        match getu4 a b c4 d with
        | none => none
        | some rr =>
          if isSurrogate rr then
            match pairedRune rr rest2 with
            | some dec => (unquoteAux 11 rest).map (Char.ofNat dec :: ·)
            | none => (unquoteAux 5 rest).map ('\uFFFD' :: ·)
          else (unquoteAux 5 rest).map (Char.ofNat rr :: ·)
      | e :: _ =>
        match unescapeRune e with
        | some x => (unquoteAux 1 rest).map (x :: ·)
        | none => none
    else if c = '"' ∨ c.toNat < 0x20 then none
    else (unquoteAux 0 rest).map (c :: ·)

/-- The function `unquote`: decode the text between the quotes of a literal. -/
def unquote (raw : List Char) : Option String :=
  (unquoteAux 0 raw).map String.mk

/-! ## encoding/json: the scanner (`scanner.go`)

The scanner is the push-down automaton of scanner.go, one step function per
state, fed one character at a time. The decoder of decode.go walks the same
automaton to build values; here every entry of `parseState` carries what the
decoder has collected for that container so far (most recent first). -/

/-- An entry of `scanner.parseState`. -/
inductive Frame where
  | parseObjectKey (ms : List (String × JVal)) (key : Option String)
  | parseObjectValue (ms : List (String × JVal)) (key : String)
  | parseArrayValue (xs : List JVal)

/-- The field `scanner.step`: the state function to run on the next character.
String and number states carry the literal read so far, most recent first. -/
inductive Step where
  | stateBeginValue
  | stateBeginValueOrEmpty
  | stateBeginStringOrEmpty
  | stateBeginString
  | stateEndValue
  | stateEndTop
  | stateInString (acc : List Char)
  | stateInStringEsc (acc : List Char)
  | stateInStringEscU (acc : List Char)
  | stateInStringEscU1 (acc : List Char)
  | stateInStringEscU12 (acc : List Char)
  | stateInStringEscU123 (acc : List Char)
  | stateNeg (acc : List Char)
  | state1 (acc : List Char)
  | state0 (acc : List Char)
  | stateDot (acc : List Char)
  | stateDot0 (acc : List Char)
  | stateE (acc : List Char)
  | stateESign (acc : List Char)
  | stateE0 (acc : List Char)
  | stateT
  | stateTr
  | stateTru
  | stateF
  | stateFa
  | stateFal
  | stateFals
  | stateN
  | stateNu
  | stateNul

/-- The scanner together with the value the decoder has built. A scan error is
the absence of a next scanner. -/
structure Scanner where
  step : Step
  parseState : List Frame
  endTop : Bool
  top : Option JVal

/-- The constant `maxNestingDepth`. -/
def maxNestingDepth : Nat := 10000

/-- The function `isSpace`. -/
def isSpace (c : Char) : Bool :=
  c = ' ' ∨ c = '\t' ∨ c = '\r' ∨ c = '\n'

/-- The test on a decimal digit. -/
def isDigit (c : Char) : Bool :=
  '0' ≤ c ∧ c ≤ '9'

/-- The test of the `stateInStringEscU` family. -/
def isHex (c : Char) : Bool :=
  ('0' ≤ c ∧ c ≤ '9') ∨ ('a' ≤ c ∧ c ≤ 'f') ∨ ('A' ≤ c ∧ c ≤ 'F')

/-- A value is complete: hand it to the innermost open container, or make it
the top-level value. The next state is `stateEndValue`. -/
def emit (s : Scanner) (v : JVal) : Option Scanner :=
  match s.parseState with
  | [] => some { s with step := .stateEndValue, top := some v }
  | .parseObjectKey ms _ :: rest =>
    match v with
    | .str k => some { s with step := .stateEndValue, parseState := .parseObjectKey ms (some k) :: rest }
    | _ => none
  | .parseObjectValue ms k :: rest =>
    some { s with step := .stateEndValue, parseState := .parseObjectValue ((k, v) :: ms) k :: rest }
  | .parseArrayValue xs :: rest =>
    some { s with step := .stateEndValue, parseState := .parseArrayValue (v :: xs) :: rest }

/-- The method `pushParseState`. -/
def pushParseState (s : Scanner) (f : Frame) (next : Step) : Option Scanner :=
  if (f :: s.parseState).length ≤ maxNestingDepth then
    some { s with step := next, parseState := f :: s.parseState }
  else none

/-- The function `stateEndTop`. -/
def stateEndTop (s : Scanner) (c : Char) : Option Scanner :=
  if isSpace c then some s else none

/-- The function `stateEndValue`; closing a container is `popParseState`
followed by handing the finished container on. -/
def stateEndValue (s : Scanner) (c : Char) : Option Scanner :=
  match s.parseState with
  | [] => stateEndTop { s with step := .stateEndTop, endTop := true } c
  | .parseObjectKey ms key :: rest =>
    if isSpace c then some { s with step := .stateEndValue }
    else if c = ':' then
      match key with
      | some k => some { s with step := .stateBeginValue, parseState := .parseObjectValue ms k :: rest }
      | none => none
    else none
  | .parseObjectValue ms _ :: rest =>
    if isSpace c then some { s with step := .stateEndValue }
    else if c = ',' then
      some { s with step := .stateBeginString, parseState := .parseObjectKey ms none :: rest }
    else if c = '}' then
      (emit { s with parseState := rest } (.obj ms.reverse)).map
        fun t => if rest.isEmpty then { t with step := .stateEndTop, endTop := true } else t
    else none
  | .parseArrayValue xs :: rest =>
    if isSpace c then some { s with step := .stateEndValue }
    else if c = ',' then some { s with step := .stateBeginValue }
    else if c = ']' then
      (emit { s with parseState := rest } (.arr xs.reverse)).map
        fun t => if rest.isEmpty then { t with step := .stateEndTop, endTop := true } else t
    else none

/-- The function `stateBeginString`. -/
def stateBeginString (s : Scanner) (c : Char) : Option Scanner :=
  if isSpace c then some s
  else if c = '"' then some { s with step := .stateInString [] }
  else none

/-- The function `stateBeginStringOrEmpty`. -/
def stateBeginStringOrEmpty (s : Scanner) (c : Char) : Option Scanner :=
  if isSpace c then some s
  else if c = '}' then
    match s.parseState with
    | .parseObjectKey ms _ :: rest =>
      stateEndValue { s with parseState := .parseObjectValue ms "" :: rest } c
    | _ => none
  else stateBeginString s c

/-- The function `stateBeginValue`. -/
def stateBeginValue (s : Scanner) (c : Char) : Option Scanner :=
  if isSpace c then some s
  else if c = '{' then pushParseState s (.parseObjectKey [] none) .stateBeginStringOrEmpty
  else if c = '[' then pushParseState s (.parseArrayValue []) .stateBeginValueOrEmpty
  else if c = '"' then some { s with step := .stateInString [] }
  else if c = '-' then some { s with step := .stateNeg [c] }
  else if c = '0' then some { s with step := .state0 [c] }
  else if c = 't' then some { s with step := .stateT }
  else if c = 'f' then some { s with step := .stateF }
  else if c = 'n' then some { s with step := .stateN }
  else if '1' ≤ c ∧ c ≤ '9' then some { s with step := .state1 [c] }
  else none

/-- The function `stateBeginValueOrEmpty`. -/
def stateBeginValueOrEmpty (s : Scanner) (c : Char) : Option Scanner :=
  if isSpace c then some s
  else if c = ']' then stateEndValue s c
  else stateBeginValue s c

/-- The function `stateInString`; the closing quote completes the literal, which
the decoder unquotes. -/
def stateInString (s : Scanner) (acc : List Char) (c : Char) : Option Scanner :=
  if c = '"' then
    match unquote acc.reverse with
    | some str => emit s (.str str)
    | none => none
  else if c = '\\' then some { s with step := .stateInStringEsc (c :: acc) }
  else if c.toNat < 0x20 then none
  else some { s with step := .stateInString (c :: acc) }

/-- The function `stateInStringEsc`. -/
def stateInStringEsc (s : Scanner) (acc : List Char) (c : Char) : Option Scanner :=
  if c = 'b' ∨ c = 'f' ∨ c = 'n' ∨ c = 'r' ∨ c = 't' ∨ c = '\\' ∨ c = '/' ∨ c = '"' then
    some { s with step := .stateInString (c :: acc) }
  else if c = 'u' then some { s with step := .stateInStringEscU (c :: acc) }
  else none

/-- A number literal ends before `c`: hand the number on and let
`stateEndValue` look at `c`. -/
def endNumber (s : Scanner) (acc : List Char) (c : Char) : Option Scanner :=
  (emit s (.num acc.reverse)).bind fun t => stateEndValue t c

/-- The function `state0`. -/
def state0 (s : Scanner) (acc : List Char) (c : Char) : Option Scanner :=
  if c = '.' then some { s with step := .stateDot (c :: acc) }
  else if c = 'e' ∨ c = 'E' then some { s with step := .stateE (c :: acc) }
  else endNumber s acc c

/-- The function `stateESign`. -/
def stateESign (s : Scanner) (acc : List Char) (c : Char) : Option Scanner :=
  if isDigit c then some { s with step := .stateE0 (c :: acc) } else none

/-- One step of the scanner: run the current state function on `c`. -/
def Scanner.next (s : Scanner) (c : Char) : Option Scanner :=
  match s.step with
  | .stateBeginValue => stateBeginValue s c
  | .stateBeginValueOrEmpty => stateBeginValueOrEmpty s c
  | .stateBeginStringOrEmpty => stateBeginStringOrEmpty s c
  | .stateBeginString => stateBeginString s c
  | .stateEndValue => stateEndValue s c
  | .stateEndTop => stateEndTop s c
  | .stateInString acc => stateInString s acc c
  | .stateInStringEsc acc => stateInStringEsc s acc c
  | .stateInStringEscU acc =>
    if isHex c then some { s with step := .stateInStringEscU1 (c :: acc) } else none
  | .stateInStringEscU1 acc =>
    if isHex c then some { s with step := .stateInStringEscU12 (c :: acc) } else none
  | .stateInStringEscU12 acc =>
    if isHex c then some { s with step := .stateInStringEscU123 (c :: acc) } else none
  | .stateInStringEscU123 acc =>
    if isHex c then some { s with step := .stateInString (c :: acc) } else none
  | .stateNeg acc =>
    if c = '0' then some { s with step := .state0 (c :: acc) }
    else if '1' ≤ c ∧ c ≤ '9' then some { s with step := .state1 (c :: acc) }
    else none
  | .state1 acc =>
    if isDigit c then some { s with step := .state1 (c :: acc) } else state0 s acc c
  | .state0 acc => state0 s acc c
  | .stateDot acc =>
    if isDigit c then some { s with step := .stateDot0 (c :: acc) } else none
  | .stateDot0 acc =>
    if isDigit c then some { s with step := .stateDot0 (c :: acc) }
    else if c = 'e' ∨ c = 'E' then some { s with step := .stateE (c :: acc) }
    else endNumber s acc c
  | .stateE acc =>
    if c = '+' ∨ c = '-' then some { s with step := .stateESign (c :: acc) }
    else stateESign s acc c
  | .stateESign acc => stateESign s acc c
  | .stateE0 acc =>
    if isDigit c then some { s with step := .stateE0 (c :: acc) } else endNumber s acc c
  | .stateT => if c = 'r' then some { s with step := .stateTr } else none
  | .stateTr => if c = 'u' then some { s with step := .stateTru } else none
  | .stateTru => if c = 'e' then emit s (.bool true) else none
  | .stateF => if c = 'a' then some { s with step := .stateFa } else none
  | .stateFa => if c = 'l' then some { s with step := .stateFal } else none
  | .stateFal => if c = 's' then some { s with step := .stateFals } else none
  | .stateFals => if c = 'e' then emit s (.bool false) else none
  | .stateN => if c = 'u' then some { s with step := .stateNu } else none
  | .stateNu => if c = 'l' then some { s with step := .stateNul } else none
  | .stateNul => if c = 'l' then emit s .null else none

/-- The loop of `checkValid`: feed every character, stop at the first error. -/
def Scanner.run (s : Scanner) : List Char → Option Scanner
  | [] => some s
  | c :: cs => (s.next c).bind fun t => t.run cs

/-- The method `scanner.eof`: a value still open at the end of the input is
given one space to finish; the document is the completed top-level value. -/
def Scanner.eof (s : Scanner) : Option JVal :=
  if s.endTop then s.top
  else
    match s.next ' ' with
    | some t => if t.endTop then t.top else none
    | none => none

/-- The method `scanner.reset`. -/
def Scanner.reset : Scanner :=
  { step := .stateBeginValue, parseState := [], endTop := false, top := none }

/-- The document in `data`, or nothing when `checkValid` reports a scan error
(`*json.SyntaxError`). -/
def parseJSON (data : List Char) : Option JVal :=
  (Scanner.reset.run data).bind Scanner.eof

/-! ## The data model of server.go -/

/-- The anonymous struct type of the field `Usdbrl` of `Cotacao`. Every field is
a Go `string`; the program only ever holds strings that `json.Unmarshal`
produced, which are valid UTF-8, so they are modelled as Unicode text. -/
structure UsdbrlStruct where
  Code : String := ""
  Codein : String := ""
  Name : String := ""
  High : String := ""
  Low : String := ""
  VarBid : String := ""
  PctChange : String := ""
  Bid : String := ""
  Ask : String := ""
  Timestamp : String := ""
  CreateDate : String := ""
  deriving DecidableEq, Repr

/-- The type `Cotacao`. The default value is Go's zero value (`var cotacao Cotacao`). -/
structure Cotacao where
  Usdbrl : UsdbrlStruct := {}
  deriving DecidableEq, Repr

/-- The eleven fields of the inner struct, in declaration order. -/
inductive Field where
  | Code | Codein | Name | High | Low | VarBid | PctChange | Bid | Ask | Timestamp | CreateDate
  deriving DecidableEq, Repr

/-- The fields in declaration order, the order in which the encoder writes them. -/
def Field.all : List Field :=
  [.Code, .Codein, .Name, .High, .Low, .VarBid, .PctChange, .Bid, .Ask, .Timestamp, .CreateDate]

/-- The name in the `json:"..."` tag of a field. -/
def Field.tag : Field → String
  | .Code => "code"
  | .Codein => "codein"
  | .Name => "name"
  | .High => "high"
  | .Low => "low"
  | .VarBid => "varBid"
  | .PctChange => "pctChange"
  | .Bid => "bid"
  | .Ask => "ask"
  | .Timestamp => "timestamp"
  | .CreateDate => "create_date"

/-- Read a field of the inner struct. -/
def UsdbrlStruct.get (u : UsdbrlStruct) : Field → String
  | .Code => u.Code
  | .Codein => u.Codein
  | .Name => u.Name
  | .High => u.High
  | .Low => u.Low
  | .VarBid => u.VarBid
  | .PctChange => u.PctChange
  | .Bid => u.Bid
  | .Ask => u.Ask
  | .Timestamp => u.Timestamp
  | .CreateDate => u.CreateDate

/-- Assign a field of the inner struct. -/
def UsdbrlStruct.set (u : UsdbrlStruct) (f : Field) (s : String) : UsdbrlStruct :=
  match f with
  | .Code => { u with Code := s }
  | .Codein => { u with Codein := s }
  | .Name => { u with Name := s }
  | .High => { u with High := s }
  | .Low => { u with Low := s }
  | .VarBid => { u with VarBid := s }
  | .PctChange => { u with PctChange := s }
  | .Bid => { u with Bid := s }
  | .Ask => { u with Ask := s }
  | .Timestamp => { u with Timestamp := s }
  | .CreateDate => { u with CreateDate := s }

/-- A Go `error` value. The two decoding errors are the ones `json.Unmarshal`
itself produces; every other error comes from the outside world. -/
inductive GoError where
  | SyntaxError
  | UnmarshalTypeError
  | other (msg : String)
  deriving DecidableEq, Repr

/-- The method `Error`: the text `log` prints for an error. -/
def GoError.Error : GoError → String
  | .SyntaxError => "invalid character in JSON input"
  | .UnmarshalTypeError => "json: cannot unmarshal value into Go value"
  | .other msg => msg

/-! ## encoding/json: decoding into `Cotacao` (`decode.go`)

Quoting the package documentation: "To unmarshal JSON into a struct, Unmarshal
matches incoming object keys to the keys used by Marshal (either the struct
field name or its tag), preferring an exact match but also accepting a
case-insensitive match." Keys that match no field are skipped; `null` leaves the
destination untouched; a value of the wrong JSON type is an
`UnmarshalTypeError`. Members are processed in document order, so a later
member overwrites what an earlier one stored. -/

/-- The function `foldRune` on the runes that matter here: the smallest rune of
the case-folding orbit. Lower-case ASCII folds to upper case; U+017F (long s)
and U+212A (Kelvin sign) are the two non-ASCII runes whose orbit contains an
ASCII letter. Other runes never fold to a character of a tag of `Cotacao`. -/
def foldRune (c : Char) : Char :=
  if 'a' ≤ c ∧ c ≤ 'z' then Char.ofNat (c.toNat - 32)
  else if c.toNat = 0x17F then 'S'
  else if c.toNat = 0x212A then 'K'
  else c

/-- The function `foldName`. -/
def foldName (key : String) : List Char :=
  key.data.map foldRune

/-- The field a key of the inner object is stored in: `byExactName`, then
`byFoldedName`. -/
def fieldFor (key : String) : Option Field :=
  match Field.all.find? (fun f => f.tag = key) with
  | some f => some f
  | none => Field.all.find? (fun f => foldName f.tag = foldName key)

/-- Whether a key of the outer object selects the field `Usdbrl`, tagged
`json:"USDBRL"`. -/
def matchesUsdbrl (key : String) : Bool :=
  key = "USDBRL" ∨ foldName key = foldName "USDBRL"

/-- The method `literalStore` (and `array`, `object`) with a destination of
kind string. -/
def storeString (v : JVal) (cur : String) : Except GoError String :=
  match v with
  | .str s => .ok s
  | .null => .ok cur
  | _ => .error .UnmarshalTypeError

/-- The loop of the method `object` over the members of the inner object. -/
def objectUsdbrl : List (String × JVal) → UsdbrlStruct → Except GoError UsdbrlStruct
  | [], u => .ok u
  | (key, v) :: ms, u =>
    match fieldFor key with
    | some f =>
      match storeString v (u.get f) with
      | .ok s => objectUsdbrl ms (u.set f s)
      | .error err => .error err
    | none => objectUsdbrl ms u

/-- The method `value` with the field `Usdbrl` as destination. -/
def valueUsdbrl (v : JVal) (u : UsdbrlStruct) : Except GoError UsdbrlStruct :=
  match v with
  | .obj ms => objectUsdbrl ms u
  | .null => .ok u
  | _ => .error .UnmarshalTypeError

/-- The loop of the method `object` over the members of the outer object. -/
def objectCotacao : List (String × JVal) → Cotacao → Except GoError Cotacao
  | [], c => .ok c
  | (key, v) :: ms, c =>
    if matchesUsdbrl key then
      match valueUsdbrl v c.Usdbrl with
      | .ok u => objectCotacao ms { c with Usdbrl := u }
      | .error err => .error err
    else objectCotacao ms c

/-- The method `value` with a `Cotacao` as destination. -/
def valueCotacao (v : JVal) (c : Cotacao) : Except GoError Cotacao :=
  match v with
  | .obj ms => objectCotacao ms c
  | .null => .ok c
  | _ => .error .UnmarshalTypeError

/-- The call `json.Unmarshal(data, &cotacao)`, where `c` is what `cotacao`
holds before the call. -/
def Unmarshal (data : String) (c : Cotacao) : Except GoError Cotacao :=
  match parseJSON data.data with
  | none => .error .SyntaxError
  | some v => valueCotacao v c

/-- The call `json.Unmarshal(data, &s)` with `s` a Go string holding `cur`. -/
def UnmarshalString (data : String) (cur : String) : Except GoError String :=
  match parseJSON data.data with
  | none => .error .SyntaxError
  | some v => storeString v cur

/-! ## encoding/json: encoding (`encode.go`) -/

/-- The struct encoder: `next` is the byte written before the next member,
an opening brace first and a comma afterwards. -/
def structEncoder (next : Char) : List (String × List Char) → List Char
  | [] => if next = '{' then ['{', '}'] else ['}']
  | (name, value) :: ms =>
    next :: (appendString name ++ ':' :: (value ++ structEncoder ',' ms))

/-- The members the encoder writes for the inner struct. -/
def usdbrlMembers (u : UsdbrlStruct) : List (String × List Char) :=
  Field.all.map fun f => (f.tag, appendString (u.get f))

/-- The call `json.Marshal(cotacao)`. Encoding a struct of strings cannot fail. -/
def Marshal (c : Cotacao) : Except GoError String :=
  .ok (String.mk (structEncoder '{' [("USDBRL", structEncoder '{' (usdbrlMembers c.Usdbrl))]))

/-- The call `json.Marshal(s)` on a Go string. Encoding a string cannot fail. -/
def MarshalString (s : String) : Except GoError String :=
  .ok (String.mk (appendString s))

/-! ## The server: state and outside world -/

/-- A row of the table `quotation(id INTEGER PRIMARY KEY AUTOINCREMENT, json TEXT)`. -/
structure Row where
  id : Nat
  json : String
  deriving DecidableEq, Repr

/-- The database behind the handle `DB`: the rows of `quotation` in insertion
order and the largest id ever handed out (the `sqlite_sequence` entry). -/
structure Store where
  rows : List Row := []
  seq : Nat := 0
  deriving DecidableEq, Repr

/-- The server process as far as a request can change or observe it. -/
structure ServerState where
  DB : Store := {}
  log : List String := []
  upstreamCalls : Nat := 0
  execCalls : Nat := 0
  deriving DecidableEq, Repr

/-- What `http.DefaultClient.Do` followed by `io.ReadAll` gives: an error from
`Do`, or a response with its status code, the body read and the error of the
read, if any. The body is text: the bytes decoded as UTF-8, a byte that is not
valid UTF-8 standing as U+FFFD, which is what the JSON decoder makes of it. -/
inductive Upstream where
  | failed (err : GoError)
  | response (status : Nat) (body : String) (readErr : Option GoError)
  deriving DecidableEq, Repr

/-- The outside world during one request: whether each timeout context is
already done when it is polled, and the outcome of every call that leaves the
process. -/
structure Env where
  fetchDone : Bool := false
  newRequest : Option GoError := none
  upstream : Upstream
  writeDone : Bool := false
  exec : Option GoError := none
  deriving DecidableEq, Repr

/-- The call `log.Println` / `log.Printf`. -/
def ServerState.println (s : ServerState) (line : String) : ServerState :=
  { s with log := s.log ++ [line] }

/-! ## server.go -/

/-- The function `insertCotacao`: one `INSERT INTO quotation (json) VALUES (?)`,
whose outcome `exec` is decided by the database. A failed statement changes no row. -/
def insertCotacao (exec : Option GoError) (jsonData : String) (s : ServerState) :
    Option GoError × ServerState :=
  let s := { s with execCalls := s.execCalls + 1 }
  match exec with
  | some err => (some err, s.println ("Failed to insert registry: " ++ err.Error))
  | none =>
    (none, { s with DB := { rows := s.DB.rows ++ [{ id := s.DB.seq + 1, json := jsonData }],
                            seq := s.DB.seq + 1 } })

/-- The function `CotacaoWriteDB`. -/
def CotacaoWriteDB (env : Env) (cotacao : Cotacao) (s : ServerState) :
    Option GoError × ServerState :=
  let s := s.println (if env.writeDone then "timeout when writing to database." else "processing...")
  match Marshal cotacao with
  | .error err => (some err, s)
  | .ok jsonData =>
    match insertCotacao env.exec jsonData s with
    | (some err, s) => (some err, s)
    | (none, s) => (none, s)

/-- The function `BuscaCotacao`. -/
def BuscaCotacao (env : Env) (s : ServerState) : Except GoError Cotacao × ServerState :=
  let s := s.println (if env.fetchDone then "timeout when processing the request." else "processing...")
  match env.newRequest with
  | some err => (.error err, s)
  | none =>
    let s := { s with upstreamCalls := s.upstreamCalls + 1 }
    match env.upstream with
    | .failed err => (.error err, s)
    | .response _ body readErr =>
      match readErr with
      | some err => (.error err, s)
      | none =>
        match Unmarshal body {} with
        | .error err => (.error err, s)
        | .ok cotacao =>
          match CotacaoWriteDB env cotacao s with
          | (some err, s) => (.error err, s)
          | (none, s) => (.ok cotacao, s)

/-- The reply under construction behind an `http.ResponseWriter`: the header
map, the status line once written, and the body written so far. -/
structure ResponseWriter where
  header : List (String × String) := []
  status : Option Nat := none
  body : String := ""
  deriving DecidableEq, Repr

/-- The call `w.Header().Set(key, value)`; the keys used are already in
canonical form. Changing the map after the status line is written has no effect. -/
def ResponseWriter.Set (w : ResponseWriter) (key value : String) : ResponseWriter :=
  match w.status with
  | some _ => w
  | none => { w with header := (w.header.filter fun kv => kv.1 ≠ key) ++ [(key, value)] }

/-- The call `w.Header().Get(key)`. -/
def ResponseWriter.Get (w : ResponseWriter) (key : String) : String :=
  match w.header.find? (fun kv => kv.1 = key) with
  | some kv => kv.2
  | none => ""

/-- The method `WriteHeader`: the first call fixes the status, later calls are
superfluous and ignored. -/
def ResponseWriter.WriteHeader (w : ResponseWriter) (code : Nat) : ResponseWriter :=
  match w.status with
  | some _ => w
  | none => { w with status := some code }

/-- The method `Write`: writes the status line with 200 when none was written,
then appends to the body. -/
def ResponseWriter.Write (w : ResponseWriter) (data : String) : ResponseWriter :=
  let w := w.WriteHeader 200
  { w with body := w.body ++ data }

/-- The constants of net/http used by the server. -/
def StatusOK : Nat := 200

/-- The constant `http.StatusNotFound`. -/
def StatusNotFound : Nat := 404

/-- The constant `http.StatusInternalServerError`. -/
def StatusInternalServerError : Nat := 500

/-- The constant `http.StatusMovedPermanently`. -/
def StatusMovedPermanently : Nat := 301

/-- The function `BuscaCotacaoHandler`; `path` is `r.URL.Path`. -/
def BuscaCotacaoHandler (env : Env) (w : ResponseWriter) (path : String) (s : ServerState) :
    ResponseWriter × ServerState :=
  if path ≠ "/cotacao" then (w.WriteHeader StatusNotFound, s)
  else
    match BuscaCotacao env s with
    | (.error _, s) => (w.WriteHeader StatusInternalServerError, s)
    | (.ok cotacao, s) =>
      let w := w.Set "Contet-Type" "application/json"
      let w := w.WriteHeader StatusOK
      match MarshalString cotacao.Usdbrl.Bid with
      | .error _ => (w.WriteHeader StatusInternalServerError, s)
      | .ok result => (w.Write result, s)

/-! ## net/http: the default mux as `main` sets it up

`main` registers one pattern, `/cotacao`, on `http.DefaultServeMux` and serves
with it. A pattern that does not end in a slash matches that path only. The mux
first redirects a request whose path is not in canonical form, hands a request
whose path equals the pattern to the handler, and answers every other request
itself with `http.NotFound`. -/

/-- Split a path at its slashes. -/
def splitPath : List Char → List (List Char)
  | [] => [[]]
  | c :: cs =>
    match splitPath cs with
    | [] => [[]]
    | seg :: segs => if c = '/' then [] :: seg :: segs else (c :: seg) :: segs

/-- The elements `path.Clean` keeps for a rooted path, innermost last: empty
elements and `.` are dropped, `..` drops the element before it. -/
def cleanElems : List (List Char) → List (List Char) → List (List Char)
  | kept, [] => kept.reverse
  | kept, seg :: segs =>
    if seg = [] ∨ seg = ['.'] then cleanElems kept segs
    else if seg = ['.', '.'] then cleanElems kept.tail segs
    else cleanElems (seg :: kept) segs

/-- The function `cleanPath` of net/http: `path.Clean` on the rooted path, with
a trailing slash kept. -/
def cleanPath (p : String) : String :=
  if p = "" then "/"
  else
    let rooted := if p.data.head? = some '/' then p.data else '/' :: p.data
    let np := '/' :: List.intercalate ['/'] (cleanElems [] (splitPath rooted))
    if rooted.getLast? = some '/' ∧ np ≠ ['/'] then String.mk (np ++ ['/']) else String.mk np

/-- The handler the mux picks for a request. -/
inductive Route where
  | handler
  | redirect (location : String)
  | notFound
  deriving DecidableEq, Repr

/-- The method `ServeMux.Handler` for the mux of `main`, on a request other
than CONNECT: a path that `cleanPath` changes is redirected to the cleaned
path, the registered path goes to the handler, anything else is not found. -/
def route (path : String) : Route :=
  if cleanPath path ≠ path then .redirect (cleanPath path)
  else if path = "/cotacao" then .handler
  else .notFound

/-- The function `http.NotFound`, which is `http.Error` with the text
"404 page not found": two headers, the status, the text and a line feed. -/
def NotFound (w : ResponseWriter) : ResponseWriter :=
  let w := w.Set "Content-Type" "text/plain; charset=utf-8"
  let w := w.Set "X-Content-Type-Options" "nosniff"
  let w := w.WriteHeader StatusNotFound
  w.Write "404 page not found\n"

/-- What the server sends back for one request: a reply written through a
`ResponseWriter`, or the mux's permanent redirect to the canonical path (its
headers and its body, a link to the location, are not spelled out). -/
inductive Served where
  | reply (w : ResponseWriter)
  | redirect (location : String)
  deriving DecidableEq, Repr

/-- The status line of what the server sends. -/
def Served.status : Served → Option Nat
  | .reply w => w.status
  | .redirect _ => some StatusMovedPermanently

/-- The body of a reply written through a `ResponseWriter`. -/
def Served.body : Served → Option String
  | .reply w => some w.body
  | .redirect _ => none

/-- The method `ServeMux.ServeHTTP` of the mux of `main`: what the server does
with one request for `path`, starting from a fresh `ResponseWriter`. -/
def ServeHTTP (env : Env) (path : String) (s : ServerState) : Served × ServerState :=
  match route path with
  | .handler =>
    let r := BuscaCotacaoHandler env {} path s
    (.reply r.1, r.2)
  | .redirect location => (.redirect location, s)
  | .notFound => (.reply (NotFound {}), s)

/-! ## client.go -/

namespace Client

/-- Raw bytes, as in a Go byte slice or string. -/
abbrev Bytes := List UInt8

/-- The bytes of a string constant of the source, which is UTF-8 text. -/
def utf8 (s : String) : Bytes :=
  (s.data.map String.utf8EncodeChar).flatten

/-- What `http.DefaultClient.Do` followed by `io.ReadAll` gives the client. When
`Do` reports an error the response it returns is nil. -/
inductive Reply where
  | failed (err : GoError)
  | response (status : Nat) (body : Bytes) (readErr : Option GoError)
  deriving DecidableEq, Repr

/-- The outside world during one run of the client. A failing write reports
how many bytes reached the file before the error. -/
structure Env where
  newRequest : Option GoError := none
  reply : Reply
  create : Option GoError := none
  write : Option (Nat × GoError) := none
  deriving DecidableEq, Repr

/-- What the run can change: the content of `cotacao.txt` (nothing when the
file does not exist) and the log. -/
structure Machine where
  file : Option Bytes := none
  log : List String := []
  deriving DecidableEq, Repr

/-- How the run ends. -/
inductive Exit where
  | returned
  | panicked
  deriving DecidableEq, Repr

/-- The call `log.Println(err)`. -/
def Machine.println (m : Machine) (err : GoError) : Machine :=
  { m with log := m.log ++ [err.Error] }

/-- The error `os.ErrInvalid`, which the methods of a nil `*os.File` return. -/
def ErrInvalid : GoError := .other "invalid argument"

/-- The function `main` of client.go. After a failed `NewRequestWithContext`
the request is nil and `Do` dereferences it; after a failed `Do` the response
is nil and `defer res.Body.Close()` dereferences it. A nil pointer dereference
is a run-time panic, and nothing after it runs. -/
def main (env : Env) (m : Machine) : Exit × Machine :=
  match env.newRequest with
  | some err => (.panicked, m.println err)
  | none =>
    match env.reply with
    | .failed err => (.panicked, m.println err)
    | .response _ body readErr =>
      let m := match readErr with
        | some err => m.println err
        | none => m
      let text := utf8 "Dólar: " ++ body
      match env.create with
      | some err =>
        let m := m.println err
        (.returned, m.println ErrInvalid)
      | none =>
        let m := { m with file := some [] }
        match env.write with
        | some (n, err) =>
          let m := { m with file := some (text.take n) }
          (.returned, m.println err)
        | none => (.returned, { m with file := some text })

end Client

/-! ## Vocabulary of the statements -/

/-- The states in which the scanner accepts the opening quote of a string. -/
def Step.beginsString : Step → Bool
  | .stateBeginValue => true
  | .stateBeginValueOrEmpty => true
  | .stateBeginStringOrEmpty => true
  | .stateBeginString => true
  | _ => false

/-- The text `text` is read, inside a container nested at most `d` levels below
the limit, as the value `v`. -/
def Encodes (text : List Char) (v : JVal) (d : Nat) : Prop :=
  ∀ s : Scanner, s.step = .stateBeginValue → s.parseState ≠ [] →
    s.parseState.length + d ≤ maxNestingDepth → s.run text = emit s v

/-- Member by member, the texts of `members` are read as the values of `vals`. -/
def EncodesMembers (members : List (String × List Char)) (vals : List (String × JVal))
    (d : Nat) : Prop :=
  List.Forall₂ (fun m p => m.1 = p.1 ∧ Encodes m.2 p.2 d) members vals

/-- What the scanner is left with once a container is closed. -/
def closed (rest : List Frame) (e : Bool) (t : Option JVal) (v : JVal) : Option Scanner :=
  (emit ⟨.stateEndValue, rest, e, t⟩ v).map
    fun r => if rest.isEmpty then { r with step := .stateEndTop, endTop := true } else r

/-- The members of the object that carries the fields of `u` as JSON strings,
in declaration order. -/
def payloadMembers (u : UsdbrlStruct) : List (String × JVal) :=
  Field.all.map fun f => (f.tag, .str (u.get f))

/-- The upstream reply of the scenario: the full quotation object. -/
def scenarioBody : String :=
  "\x7b\"USDBRL\":\x7b\"code\":\"USD\",\"codein\":\"BRL\",\"name\":\"Dólar/Real\",\"high\":\"5.45\",\"low\":\"5.40\",\"varBid\":\"0.01\",\"pctChange\":\"0.2\",\"bid\":\"5.4321\",\"ask\":\"5.4325\",\"timestamp\":\"1700000000\",\"create_date\":\"2023-11-14 00:00:00\"\x7d\x7d"

/-- The quotation the scenario reply carries. -/
def scenarioCotacao : Cotacao :=
  { Usdbrl := { Code := "USD", Codein := "BRL", Name := "Dólar/Real", High := "5.45",
                Low := "5.40", VarBid := "0.01", PctChange := "0.2", Bid := "5.4321",
                Ask := "5.4325", Timestamp := "1700000000",
                CreateDate := "2023-11-14 00:00:00" } }

/-- The outside world of the scenario: upstream answers 200 with the quotation
object, nothing fails. -/
def scenarioEnv : Env :=
  { upstream := .response 200 scenarioBody none }

/-- The outside world of the scenario, except that the insert fails. -/
def insertFailsEnv : Env :=
  { upstream := .response 200 scenarioBody none, exec := some (.other "database is locked") }

/-- The outside world when the upstream cannot be reached. -/
def unreachableEnv : Env :=
  { upstream := .failed (.other "dial tcp: connection refused") }

/-- A fetch that fails before anything can be stored: the upstream call fails,
the body cannot be read, or the body does not decode. -/
def fetchFails (env : Env) : Prop :=
  match env.upstream with
  | .failed _ => True
  | .response _ body readErr => readErr ≠ none ∨ ∃ err, Unmarshal body {} = .error err

/-- The text `json.Marshal` writes for the zero `Cotacao`. -/
def zeroJson : String :=
  "\x7b\"USDBRL\":\x7b\"code\":\"\",\"codein\":\"\",\"name\":\"\",\"high\":\"\",\"low\":\"\",\"varBid\":\"\",\"pctChange\":\"\",\"bid\":\"\",\"ask\":\"\",\"timestamp\":\"\",\"create_date\":\"\"\x7d\x7d"

/-- An upstream reply whose only member is named `usdbrl`, in lower case. -/
def lowerCaseEnv : Env :=
  { upstream := .response 200 "\x7b\"usdbrl\":\x7b\"bid\":\"1.05\"\x7d\x7d" none }

/-- An upstream error reply: status 500 and an object without quotation. -/
def errorObjectEnv : Env :=
  { upstream := .response 500 "\x7b\"status\":500,\"message\":\"upstream down\"\x7d" none }

/-! # Theorems

## encoding/json: what the scanner does with encoded text -/

theorem Scanner.run_append (s : Scanner) (a b : List Char) :
    s.run (a ++ b) = (s.run a).bind fun t => t.run b := by
  induction a generalizing s with
  | nil => simp [Scanner.run]
  | cons c cs ih =>
    simp only [List.cons_append, Scanner.run]
    cases h : s.next c with
    | none => simp
    | some t => simp [ih]

theorem Scanner.run_cons (s : Scanner) (c : Char) (cs : List Char) :
    s.run (c :: cs) = (s.next c).bind fun t => t.run cs := rfl

theorem Scanner.run_nil (s : Scanner) : s.run [] = some s := rfl

theorem isHex_hexDigit : ∀ n, n < 16 → isHex (hexDigit n) = true := by decide

theorem hexVal_hexDigit : ∀ n, n < 16 → hexVal (hexDigit n) = some n := by decide

section steps
variable (ps : List Frame) (e : Bool) (t : Option JVal) (acc : List Char)

theorem next_inString_plain (c : Char) (h1 : c ≠ '"') (h2 : c ≠ '\\') (h3 : ¬ c.toNat < 0x20) :
    Scanner.next ⟨.stateInString acc, ps, e, t⟩ c = some ⟨.stateInString (c :: acc), ps, e, t⟩ := by
  simp [Scanner.next, stateInString, h1, h2, h3]

theorem next_inString_backslash :
    Scanner.next ⟨.stateInString acc, ps, e, t⟩ '\\' = some ⟨.stateInStringEsc ('\\' :: acc), ps, e, t⟩ := by
  simp [Scanner.next, stateInString]

theorem next_inStringEsc_simple (c : Char)
    (h : c = 'b' ∨ c = 'f' ∨ c = 'n' ∨ c = 'r' ∨ c = 't' ∨ c = '\\' ∨ c = '/' ∨ c = '"') :
    Scanner.next ⟨.stateInStringEsc acc, ps, e, t⟩ c = some ⟨.stateInString (c :: acc), ps, e, t⟩ := by
  simp [Scanner.next, stateInStringEsc, h]

theorem next_inStringEsc_u :
    Scanner.next ⟨.stateInStringEsc acc, ps, e, t⟩ 'u' = some ⟨.stateInStringEscU ('u' :: acc), ps, e, t⟩ := by
  simp [Scanner.next, stateInStringEsc]

theorem next_inStringEscU (c : Char) (h : isHex c = true) :
    Scanner.next ⟨.stateInStringEscU acc, ps, e, t⟩ c = some ⟨.stateInStringEscU1 (c :: acc), ps, e, t⟩ := by
  simp [Scanner.next, h]

theorem next_inStringEscU1 (c : Char) (h : isHex c = true) :
    Scanner.next ⟨.stateInStringEscU1 acc, ps, e, t⟩ c = some ⟨.stateInStringEscU12 (c :: acc), ps, e, t⟩ := by
  simp [Scanner.next, h]

theorem next_inStringEscU12 (c : Char) (h : isHex c = true) :
    Scanner.next ⟨.stateInStringEscU12 acc, ps, e, t⟩ c = some ⟨.stateInStringEscU123 (c :: acc), ps, e, t⟩ := by
  simp [Scanner.next, h]

theorem next_inStringEscU123 (c : Char) (h : isHex c = true) :
    Scanner.next ⟨.stateInStringEscU123 acc, ps, e, t⟩ c = some ⟨.stateInString (c :: acc), ps, e, t⟩ := by
  simp [Scanner.next, h]

/-- A backslash followed by one of the short escape letters. -/
theorem run_short_escape (c : Char)
    (h : c = 'b' ∨ c = 'f' ∨ c = 'n' ∨ c = 'r' ∨ c = 't' ∨ c = '\\' ∨ c = '/' ∨ c = '"') :
    Scanner.run ⟨.stateInString acc, ps, e, t⟩ ['\\', c] =
      some ⟨.stateInString (c :: '\\' :: acc), ps, e, t⟩ := by
  simp only [Scanner.run_cons, Scanner.run_nil, next_inString_backslash, Option.some_bind,
    next_inStringEsc_simple _ _ _ _ c h]

/-- A backslash, the letter u and four hexadecimal digits. -/
theorem run_u_escape (a b c d : Char) (ha : isHex a = true) (hb : isHex b = true)
    (hc : isHex c = true) (hd : isHex d = true) :
    Scanner.run ⟨.stateInString acc, ps, e, t⟩ ['\\', 'u', a, b, c, d] =
      some ⟨.stateInString (d :: c :: b :: a :: 'u' :: '\\' :: acc), ps, e, t⟩ := by
  simp only [Scanner.run_cons, Scanner.run_nil, next_inString_backslash, Option.some_bind,
    next_inStringEsc_u, next_inStringEscU _ _ _ _ a ha, next_inStringEscU1 _ _ _ _ b hb,
    next_inStringEscU12 _ _ _ _ c hc, next_inStringEscU123 _ _ _ _ d hd]

theorem inString_escapeRune (c : Char) :
    Scanner.run ⟨.stateInString acc, ps, e, t⟩ (escapeRune c) =
      some ⟨.stateInString ((escapeRune c).reverse ++ acc), ps, e, t⟩ := by
  unfold escapeRune
  split_ifs with h1 h2 h3 h4 h5 h6 h7 h8
  · rw [run_short_escape _ _ _ _ c (by rcases h1 with h | h <;> simp [h])]; rfl
  · rw [run_short_escape _ _ _ _ _ (by simp)]; rfl
  · rw [run_short_escape _ _ _ _ _ (by simp)]; rfl
  · rw [run_short_escape _ _ _ _ _ (by simp)]; rfl
  · rw [run_short_escape _ _ _ _ _ (by simp)]; rfl
  · rw [run_short_escape _ _ _ _ _ (by simp)]; rfl
  · have hb : c.toNat / 16 < 16 := by
      rcases h7 with h | rfl | rfl | rfl
      · omega
      all_goals decide
    have hm : c.toNat % 16 < 16 := Nat.mod_lt _ (by decide)
    rw [run_u_escape _ _ _ _ _ _ _ _ (by decide) (by decide) (isHex_hexDigit _ hb)
      (isHex_hexDigit _ hm)]
    rfl
  · have hm : c.toNat % 16 < 16 := Nat.mod_lt _ (by decide)
    rw [run_u_escape _ _ _ _ _ _ _ _ (by decide) (by decide) (by decide) (isHex_hexDigit _ hm)]
    rfl
  · have h9 : ¬ c.toNat < 0x20 := fun h => h7 (Or.inl h)
    simp only [Scanner.run_cons, Scanner.run_nil,
      next_inString_plain _ _ _ _ c (fun h => h1 (Or.inr h)) (fun h => h1 (Or.inl h)) h9,
      Option.some_bind]
    rfl

theorem inString_escapeRunes (cs : List Char) :
    Scanner.run ⟨.stateInString acc, ps, e, t⟩ (escapeRunes cs) =
      some ⟨.stateInString ((escapeRunes cs).reverse ++ acc), ps, e, t⟩ := by
  induction cs generalizing acc with
  | nil => rfl
  | cons c cs ih =>
    simp only [escapeRunes, Scanner.run_append, inString_escapeRune, Option.some_bind, ih,
      List.reverse_append, List.append_assoc]

end steps

theorem unquoteAux_plain (c : Char) (rest : List Char) (h1 : c ≠ '\\') (h2 : c ≠ '"')
    (h3 : ¬ c.toNat < 0x20) :
    unquoteAux 0 (c :: rest) = (unquoteAux 0 rest).map (c :: ·) := by
  simp [unquoteAux, h1, h2, h3]

theorem unquoteAux_short (e x : Char) (rest : List Char) (h : unescapeRune e = some x)
    (hu : e ≠ 'u') :
    unquoteAux 0 ('\\' :: e :: rest) = (unquoteAux 0 rest).map (x :: ·) := by
  rw [unquoteAux]
  · simp only [if_true, h]
    rw [unquoteAux]
  · intro a b c4 d rest2 he
    exact absurd he hu

theorem unquoteAux_u (a b c d : Char) (rr : Nat) (rest : List Char)
    (h : getu4 a b c d = some rr) (hs : isSurrogate rr = false) :
    unquoteAux 0 ('\\' :: 'u' :: a :: b :: c :: d :: rest) =
      (unquoteAux 0 rest).map (Char.ofNat rr :: ·) := by
  simp [unquoteAux, h, hs]

theorem getu4_low (c : Char) (h : c.toNat < 256) :
    getu4 '0' '0' (hexDigit (c.toNat / 16)) (hexDigit (c.toNat % 16)) = some c.toNat := by
  have hb : c.toNat / 16 < 16 := by omega
  have hm : c.toNat % 16 < 16 := Nat.mod_lt _ (by decide)
  have h0 : hexVal '0' = some 0 := by decide
  simp only [getu4, h0, hexVal_hexDigit _ hb, hexVal_hexDigit _ hm]
  have := Nat.div_add_mod c.toNat 16
  simp only [Option.some.injEq]
  omega

theorem unquoteAux_escapeRune (c : Char) (rest : List Char) :
    unquoteAux 0 (escapeRune c ++ rest) = (unquoteAux 0 rest).map (c :: ·) := by
  unfold escapeRune
  split_ifs with h1 h2 h3 h4 h5 h6 h7 h8
  · rcases h1 with rfl | rfl
    · exact unquoteAux_short _ _ _ (by decide) (by decide)
    · exact unquoteAux_short _ _ _ (by decide) (by decide)
  · subst h2; exact unquoteAux_short _ _ _ (by decide) (by decide)
  · subst h3; exact unquoteAux_short _ _ _ (by decide) (by decide)
  · subst h4; exact unquoteAux_short _ _ _ (by decide) (by decide)
  · subst h5; exact unquoteAux_short _ _ _ (by decide) (by decide)
  · subst h6; exact unquoteAux_short _ _ _ (by decide) (by decide)
  · have hlt : c.toNat < 256 := by
      rcases h7 with h | rfl | rfl | rfl
      · omega
      all_goals decide
    have hs : isSurrogate c.toNat = false := by
      simp only [isSurrogate, decide_eq_false_iff_not]
      omega
    have := unquoteAux_u _ _ _ _ _ rest (getu4_low c hlt) hs
    simpa [Char.ofNat_toNat] using this
  · have hg : getu4 '2' '0' '2' (hexDigit (c.toNat % 16)) = some c.toNat := by
      rcases h8 with h | h <;> rw [h] <;> decide
    have hs : isSurrogate c.toNat = false := by
      rcases h8 with h | h <;> rw [h] <;> decide
    have := unquoteAux_u _ _ _ _ _ rest hg hs
    simpa [Char.ofNat_toNat] using this
  · have h9 : ¬ c.toNat < 0x20 := fun h => h7 (Or.inl h)
    exact unquoteAux_plain c rest (fun h => h1 (Or.inl h)) (fun h => h1 (Or.inr h)) h9

theorem unquoteAux_escapeRunes (cs rest : List Char) :
    unquoteAux 0 (escapeRunes cs ++ rest) = (unquoteAux 0 rest).map (cs ++ ·) := by
  induction cs with
  | nil => simp [escapeRunes]
  | cons c cs ih =>
    simp only [escapeRunes, List.append_assoc, unquoteAux_escapeRune, ih, Option.map_map]
    rfl

/-- Decoding what the encoder wrote between the quotes gives the string back. -/
theorem unquote_escapeRunes (s : String) : unquote (escapeRunes s.data) = some s := by
  have h := unquoteAux_escapeRunes s.data []
  simp only [List.append_nil] at h
  simp [unquote, h, unquoteAux]

theorem next_quote (s : Scanner) (h : s.step.beginsString = true) :
    s.next '"' = some ⟨.stateInString [], s.parseState, s.endTop, s.top⟩ := by
  obtain ⟨st, ps, e, t⟩ := s
  cases st <;> simp [Step.beginsString] at h <;>
    simp [Scanner.next, stateBeginValue, stateBeginValueOrEmpty, stateBeginStringOrEmpty,
      stateBeginString, isSpace]

theorem emit_step (s : Scanner) (st : Step) (v : JVal) :
    emit { s with step := st } v = emit s v := by
  obtain ⟨st0, ps, e, t⟩ := s
  simp only [emit]

/-- Scanning an encoded string hands the string to the enclosing container. -/
theorem run_appendString (s : Scanner) (x : String) (h : s.step.beginsString = true) :
    s.run (appendString x) = emit s (.str x) := by
  obtain ⟨st, ps, e, t⟩ := s
  simp only [appendString, Scanner.run_cons, next_quote _ h, Option.some_bind,
    Scanner.run_append, inString_escapeRunes, Scanner.run_nil, List.append_nil]
  simp [Scanner.next, stateInString, unquote_escapeRunes, emit]

theorem Encodes_appendString (x : String) (d : Nat) : Encodes (appendString x) (.str x) d := by
  intro s hs _ _
  exact run_appendString s x (by rw [hs]; rfl)

theorem next_member_comma (ms : List (String × JVal)) (k : String) (rest : List Frame) (e : Bool)
    (t : Option JVal) :
    Scanner.next ⟨.stateEndValue, .parseObjectValue ms k :: rest, e, t⟩ ',' =
      some ⟨.stateBeginString, .parseObjectKey ms none :: rest, e, t⟩ := by
  simp [Scanner.next, stateEndValue, isSpace]

theorem next_member_close (ms : List (String × JVal)) (k : String) (rest : List Frame) (e : Bool)
    (t : Option JVal) :
    Scanner.next ⟨.stateEndValue, .parseObjectValue ms k :: rest, e, t⟩ '}' =
      closed rest e t (.obj ms.reverse) := by
  simp [Scanner.next, stateEndValue, isSpace, closed, emit_step]

theorem next_key_colon (ms : List (String × JVal)) (k : String) (rest : List Frame) (e : Bool)
    (t : Option JVal) :
    Scanner.next ⟨.stateEndValue, .parseObjectKey ms (some k) :: rest, e, t⟩ ':' =
      some ⟨.stateBeginValue, .parseObjectValue ms k :: rest, e, t⟩ := by
  simp [Scanner.next, stateEndValue, isSpace]

/-- From the key position of an object: one member, key, colon and value. -/
theorem run_member (st : Step) (hst : st.beginsString = true) (ms : List (String × JVal))
    (rest : List Frame) (e : Bool) (t : Option JVal) (name : String) (text : List Char)
    (v : JVal) (d : Nat) (hv : Encodes text v d) (hd : rest.length + 1 + d ≤ maxNestingDepth) :
    Scanner.run ⟨st, .parseObjectKey ms none :: rest, e, t⟩ (appendString name ++ ':' :: text) =
      some ⟨.stateEndValue, .parseObjectValue ((name, v) :: ms) name :: rest, e, t⟩ := by
  rw [Scanner.run_append, run_appendString _ _ hst]
  simp only [emit, Option.some_bind, Scanner.run_cons, next_key_colon]
  rw [hv _ rfl (by simp) (by simpa using hd)]
  simp [emit]

theorem run_members_tail (members : List (String × List Char)) (vals : List (String × JVal))
    (d : Nat) (h : EncodesMembers members vals d) :
    ∀ (ms : List (String × JVal)) (k : String) (rest : List Frame) (e : Bool) (t : Option JVal),
      rest.length + 1 + d ≤ maxNestingDepth →
      Scanner.run ⟨.stateEndValue, .parseObjectValue ms k :: rest, e, t⟩
          (structEncoder ',' members) =
        closed rest e t (.obj (ms.reverse ++ vals)) := by
  induction h with
  | nil =>
    intro ms k rest e t _
    simp [structEncoder, Scanner.run_cons, Scanner.run_nil, next_member_close]
  | @cons m p members vals hmp _ ih =>
    intro ms k rest e t hd
    obtain ⟨name, text⟩ := m
    obtain ⟨name2, v⟩ := p
    obtain ⟨rfl, hv⟩ := hmp
    simp only [structEncoder, Scanner.run_cons, next_member_comma, Option.some_bind]
    have hsplit : appendString name ++ ':' :: (text ++ structEncoder ',' members) =
        (appendString name ++ ':' :: text) ++ structEncoder ',' members := by simp
    rw [hsplit, Scanner.run_append]
    rw [run_member .stateBeginString rfl ms rest e t _ text v d hv hd]
    simp only [Option.some_bind]
    rw [ih _ _ _ _ _ hd]
    simp

theorem next_open_brace (ps : List Frame) (e : Bool) (t : Option JVal)
    (hd : ps.length + 1 ≤ maxNestingDepth) :
    Scanner.next ⟨.stateBeginValue, ps, e, t⟩ '{' =
      some ⟨.stateBeginStringOrEmpty, .parseObjectKey [] none :: ps, e, t⟩ := by
  simp [Scanner.next, stateBeginValue, isSpace, pushParseState, hd]

theorem emit_mk (st st2 : Step) (ps : List Frame) (e : Bool) (t : Option JVal) (v : JVal) :
    emit ⟨st, ps, e, t⟩ v = emit ⟨st2, ps, e, t⟩ v := by
  simp only [emit]

theorem next_empty_close (ps : List Frame) (e : Bool) (t : Option JVal) :
    Scanner.next ⟨.stateBeginStringOrEmpty, .parseObjectKey [] none :: ps, e, t⟩ '}' =
      closed ps e t (.obj []) := by
  simp [Scanner.next, stateBeginStringOrEmpty, stateEndValue, isSpace, closed, emit_step]
  rw [emit_mk .stateBeginStringOrEmpty .stateEndValue]

/-- Scanning an encoded struct, wherever a value may begin. -/
theorem run_structEncoder (members : List (String × List Char)) (vals : List (String × JVal))
    (d : Nat) (h : EncodesMembers members vals d) (ps : List Frame) (e : Bool)
    (t : Option JVal) (hd : ps.length + 1 + d ≤ maxNestingDepth) :
    Scanner.run ⟨.stateBeginValue, ps, e, t⟩ (structEncoder '{' members) =
      closed ps e t (.obj vals) := by
  have hd1 : ps.length + 1 ≤ maxNestingDepth := by omega
  cases h with
  | nil =>
    simp [structEncoder, Scanner.run_cons, Scanner.run_nil, next_open_brace _ _ _ hd1,
      next_empty_close]
  | @cons m p members vals hmp htl =>
    obtain ⟨name, text⟩ := m
    obtain ⟨name2, v⟩ := p
    obtain ⟨rfl, hv⟩ := hmp
    simp only [structEncoder, Scanner.run_cons, next_open_brace _ _ _ hd1, Option.some_bind]
    have hsplit : appendString name ++ ':' :: (text ++ structEncoder ',' members) =
        (appendString name ++ ':' :: text) ++ structEncoder ',' members := by simp
    rw [hsplit, Scanner.run_append]
    rw [run_member .stateBeginStringOrEmpty rfl [] ps e t _ text v d hv hd]
    simp only [Option.some_bind]
    rw [run_members_tail members vals d htl _ _ _ _ _ hd]
    simp

theorem Encodes_structEncoder (members : List (String × List Char)) (vals : List (String × JVal))
    (d : Nat) (h : EncodesMembers members vals d) :
    Encodes (structEncoder '{' members) (.obj vals) (d + 1) := by
  intro s hs hne hd
  obtain ⟨st, ps, e, t⟩ := s
  simp only at hs hne hd
  subst hs
  rw [run_structEncoder members vals d h ps e t (by omega)]
  cases ps with
  | nil => exact absurd rfl hne
  | cons f fs => simp [closed, emit]

/-- An encoded struct, as a whole document, parses to the object it encodes. -/
theorem parseJSON_structEncoder (members : List (String × List Char))
    (vals : List (String × JVal)) (d : Nat) (h : EncodesMembers members vals d)
    (hd : d + 1 ≤ maxNestingDepth) :
    parseJSON (structEncoder '{' members) = some (.obj vals) := by
  have := run_structEncoder members vals d h [] false none (by simp; omega)
  simp only [parseJSON, Scanner.reset, this]
  simp [closed, emit, Scanner.eof]

/-- An encoded string, as a whole document, parses to the string. -/
theorem parseJSON_appendString (x : String) : parseJSON (appendString x) = some (.str x) := by
  simp only [parseJSON, Scanner.reset]
  rw [run_appendString ⟨.stateBeginValue, [], false, none⟩ x rfl]
  simp [emit, Scanner.eof, Scanner.next, stateEndValue, stateEndTop, isSpace]

/-! ### Decoding -/

theorem fieldFor_tag (f : Field) : fieldFor f.tag = some f := by
  cases f <;> decide

theorem Field.tag_injective (f g : Field) (h : f.tag = g.tag) : f = g := by
  cases f <;> cases g <;> first | rfl | exact absurd h (by decide)

theorem UsdbrlStruct.get_set (u : UsdbrlStruct) (f g : Field) (x : String) :
    (u.set g x).get f = if f = g then x else u.get f := by
  cases f <;> cases g <;> rfl

theorem UsdbrlStruct.ext_get (u v : UsdbrlStruct) (h : ∀ f, u.get f = v.get f) : u = v := by
  obtain ⟨a1, a2, a3, a4, a5, a6, a7, a8, a9, a10, a11⟩ := u
  obtain ⟨b1, b2, b3, b4, b5, b6, b7, b8, b9, b10, b11⟩ := v
  have h1 := h .Code
  have h2 := h .Codein
  have h3 := h .Name
  have h4 := h .High
  have h5 := h .Low
  have h6 := h .VarBid
  have h7 := h .PctChange
  have h8 := h .Bid
  have h9 := h .Ask
  have h10 := h .Timestamp
  have h11 := h .CreateDate
  simp only [UsdbrlStruct.get] at h1 h2 h3 h4 h5 h6 h7 h8 h9 h10 h11
  subst h1 h2 h3 h4 h5 h6 h7 h8 h9 h10 h11
  rfl

theorem mem_payloadMembers (u : UsdbrlStruct) (f : Field) :
    (f.tag, JVal.str (u.get f)) ∈ payloadMembers u := by
  refine List.mem_map.2 ⟨f, ?_, rfl⟩
  cases f <;> decide

theorem of_mem_payloadMembers (u : UsdbrlStruct) (m : String × JVal)
    (h : m ∈ payloadMembers u) : ∃ f, m = (f.tag, JVal.str (u.get f)) := by
  obtain ⟨f, _, rfl⟩ := List.mem_map.1 h
  exact ⟨f, rfl⟩

/-- Members that all come from `u` decode without error, and every field they
name ends up with the value it has in `u`. -/
theorem objectUsdbrl_of_members (u : UsdbrlStruct) (ms : List (String × JVal))
    (h : ∀ m ∈ ms, ∃ f, m = (f.tag, JVal.str (u.get f))) (u0 : UsdbrlStruct) :
    ∃ u1, objectUsdbrl ms u0 = .ok u1 ∧
      ∀ f, u1.get f = if f.tag ∈ ms.map Prod.fst then u.get f else u0.get f := by
  induction ms generalizing u0 with
  | nil => exact ⟨u0, rfl, fun f => by simp⟩
  | cons m tl ih =>
    obtain ⟨g, rfl⟩ := h m (List.mem_cons_self _ _)
    obtain ⟨u1, hu1, hget⟩ := ih (fun m hm => h m (List.mem_cons_of_mem _ hm)) (u0.set g (u.get g))
    refine ⟨u1, ?_, fun f => ?_⟩
    · simp only [objectUsdbrl, fieldFor_tag, storeString, hu1]
    · rw [hget f, UsdbrlStruct.get_set]
      by_cases hfg : f = g
      · subst hfg; simp
      · have hne : f.tag ≠ g.tag := fun heq => hfg (Field.tag_injective f g heq)
        simp only [List.map_cons, if_neg hfg]
        by_cases hm : f.tag ∈ List.map Prod.fst tl
        · rw [if_pos hm, if_pos (List.mem_cons_of_mem _ hm)]
        · rw [if_neg hm, if_neg]
          intro hc
          rcases List.mem_cons.1 hc with h1 | h1
          · exact hne h1
          · exact hm h1

theorem objectUsdbrl_perm (u u0 : UsdbrlStruct) (ms : List (String × JVal))
    (h : ms.Perm (payloadMembers u)) : objectUsdbrl ms u0 = .ok u := by
  obtain ⟨u1, hu1, hget⟩ :=
    objectUsdbrl_of_members u ms (fun m hm => of_mem_payloadMembers u m (h.mem_iff.1 hm)) u0
  have : u1 = u := by
    apply UsdbrlStruct.ext_get
    intro f
    have hmem : f.tag ∈ ms.map Prod.fst :=
      List.mem_map.2 ⟨_, h.mem_iff.2 (mem_payloadMembers u f), rfl⟩
    rw [hget f, if_pos hmem]
  rw [hu1, this]

theorem valueCotacao_payload (q c0 : Cotacao) (ms : List (String × JVal))
    (h : ms.Perm (payloadMembers q.Usdbrl)) :
    valueCotacao (.obj [("USDBRL", .obj ms)]) c0 = .ok q := by
  have hm : matchesUsdbrl "USDBRL" = true := by decide
  simp only [valueCotacao, objectCotacao, hm, if_true, valueUsdbrl, objectUsdbrl_perm _ _ _ h]

theorem objectCotacao_unmatched (ms : List (String × JVal)) (c : Cotacao)
    (h : ∀ m ∈ ms, matchesUsdbrl m.1 = false) : objectCotacao ms c = .ok c := by
  induction ms with
  | nil => rfl
  | cons m tl ih =>
    obtain ⟨k, v⟩ := m
    have hk : matchesUsdbrl k = false := h (k, v) (List.mem_cons_self _ _)
    simp only [objectCotacao, hk]
    exact ih fun m hm => h m (List.mem_cons_of_mem _ hm)

/-! ### Encoding and decoding together -/

theorem EncodesMembers_usdbrl (u : UsdbrlStruct) :
    EncodesMembers (usdbrlMembers u) (payloadMembers u) 0 := by
  simp only [EncodesMembers, usdbrlMembers, payloadMembers, Field.all, List.map]
  repeat first
    | exact List.Forall₂.nil
    | refine List.Forall₂.cons ⟨rfl, Encodes_appendString _ _⟩ ?_

/-- The text `json.Marshal` writes for `q` parses to the object of its fields. -/
theorem parseJSON_Marshal (q : Cotacao) :
    parseJSON (structEncoder '{' [("USDBRL", structEncoder '{' (usdbrlMembers q.Usdbrl))]) =
      some (.obj [("USDBRL", .obj (payloadMembers q.Usdbrl))]) := by
  apply parseJSON_structEncoder _ _ 1
  · exact List.Forall₂.cons ⟨rfl, Encodes_structEncoder _ _ 0 (EncodesMembers_usdbrl _)⟩
      List.Forall₂.nil
  · decide

/-- Decoding the text `json.Marshal` writes for `q` gives `q` back, whatever the
destination held before. -/
theorem Unmarshal_Marshal (q c0 : Cotacao) (text : String) (h : Marshal q = .ok text) :
    Unmarshal text c0 = .ok q := by
  simp only [Marshal, Except.ok.injEq] at h
  subst h
  simp only [Unmarshal, parseJSON_Marshal]
  exact valueCotacao_payload q c0 _ (List.Perm.refl _)

/-! ### server.go: how `BuscaCotacao` ends -/

theorem CotacaoWriteDB_eq (env : Env) (q : Cotacao) (s : ServerState) (text : String)
    (h : Marshal q = .ok text) :
    CotacaoWriteDB env q s =
      insertCotacao env.exec text
        (s.println (if env.writeDone then "timeout when writing to database." else "processing...")) := by
  simp only [CotacaoWriteDB, h]
  cases hx : env.exec <;> simp [insertCotacao]

theorem CotacaoWriteDB_fst (env : Env) (q : Cotacao) (s : ServerState) :
    (CotacaoWriteDB env q s).1 = env.exec := by
  rw [CotacaoWriteDB_eq env q s _ rfl]
  cases hx : env.exec <;> simp [insertCotacao]

theorem BuscaCotacao_decoded (env : Env) (s : ServerState) (status : Nat) (body : String)
    (q : Cotacao) (h1 : env.newRequest = none) (h2 : env.upstream = .response status body none)
    (h3 : Unmarshal body {} = .ok q) :
    BuscaCotacao env s =
      match CotacaoWriteDB env q
          { (s.println (if env.fetchDone then "timeout when processing the request."
              else "processing...")) with upstreamCalls := s.upstreamCalls + 1 } with
      | (some err, s2) => (.error err, s2)
      | (none, s2) => (.ok q, s2) := by
  simp only [BuscaCotacao, h1, h2, h3]
  rfl

theorem BuscaCotacaoHandler_ok (env : Env) (s s2 : ServerState) (q : Cotacao)
    (h : BuscaCotacao env s = (.ok q, s2)) :
    BuscaCotacaoHandler env {} "/cotacao" s =
      ({ header := [("Contet-Type", "application/json")], status := some 200,
         body := String.mk (appendString q.Usdbrl.Bid) }, s2) := by
  simp only [BuscaCotacaoHandler, h, MarshalString]
  simp [ResponseWriter.Set, ResponseWriter.WriteHeader, ResponseWriter.Write, StatusOK]

theorem BuscaCotacaoHandler_error (env : Env) (s s2 : ServerState) (err : GoError)
    (h : BuscaCotacao env s = (.error err, s2)) :
    BuscaCotacaoHandler env {} "/cotacao" s = ({ status := some 500 }, s2) := by
  simp only [BuscaCotacaoHandler, h]
  simp [ResponseWriter.WriteHeader, StatusInternalServerError]

/-- Each cause of failure makes `BuscaCotacao` return an error: the request
cannot be built, the fetch fails, or the insert fails. -/
theorem BuscaCotacao_error_of_cause (env : Env) (s : ServerState)
    (h : env.newRequest ≠ none ∨ fetchFails env ∨ env.exec ≠ none) :
    ∃ err, (BuscaCotacao env s).1 = .error err := by
  unfold BuscaCotacao
  simp only
  split
  · exact ⟨_, rfl⟩
  · rename_i hreq
    split
    · exact ⟨_, rfl⟩
    · rename_i st body rerr hup
      split
      · exact ⟨_, rfl⟩
      · split
        · exact ⟨_, rfl⟩
        · rename_i cot hun
          split
          · exact ⟨_, rfl⟩
          · rename_i s2 hw
            exfalso
            rcases h with h | h | h
            · exact h hreq
            · unfold fetchFails at h
              rw [hup] at h
              rcases h with h | ⟨err, h⟩
              · exact h rfl
              · rw [hun] at h
                exact absurd h (by simp)
            · apply h
              rw [← CotacaoWriteDB_fst env cot, hw]

/-- The scenario request, evaluated: the quotation is returned and the store
gains one row holding the upstream object. -/
theorem BuscaCotacao_scenario :
    BuscaCotacao scenarioEnv {} =
      (.ok scenarioCotacao,
        { DB := { rows := [{ id := 1, json := scenarioBody }], seq := 1 },
          log := ["processing...", "processing..."], upstreamCalls := 1, execCalls := 1 }) := by
  rfl

/-! ### The claims -/

/-- C1. Whenever `BuscaCotacao` returns a quotation `q`, `BuscaCotacaoHandler`
on the path `/cotacao` answers with status 200 and a body that is exactly what
`json.Marshal` writes for the string `q.Usdbrl.Bid`: a quote, the escaped
text, a quote. The body is a JSON document that is a string (not an object),
decoding it as JSON gives the bid back, and for the bid `5.4321` the body is
`"5.4321"`, quotes included. -/
theorem BuscaCotacaoHandler_success_body (env : Env) (s s2 : ServerState) (q : Cotacao)
    (h : BuscaCotacao env s = (.ok q, s2)) :
    (BuscaCotacaoHandler env {} "/cotacao" s).1.status = some 200 ∧
    MarshalString q.Usdbrl.Bid = .ok (BuscaCotacaoHandler env {} "/cotacao" s).1.body ∧
    (BuscaCotacaoHandler env {} "/cotacao" s).1.body.data =
      '"' :: (escapeRunes q.Usdbrl.Bid.data ++ ['"']) ∧
    parseJSON (BuscaCotacaoHandler env {} "/cotacao" s).1.body.data = some (.str q.Usdbrl.Bid) ∧
    (∀ cur, UnmarshalString (BuscaCotacaoHandler env {} "/cotacao" s).1.body cur
      = .ok q.Usdbrl.Bid) ∧
    (q.Usdbrl.Bid = "5.4321" →
      (BuscaCotacaoHandler env {} "/cotacao" s).1.body = "\"5.4321\"") := by
  rw [BuscaCotacaoHandler_ok env s s2 q h]
  refine ⟨rfl, rfl, rfl, parseJSON_appendString _, fun cur => ?_, fun hb => ?_⟩
  · simp only [UnmarshalString, parseJSON_appendString, storeString]
  · simp only [hb]
    decide

theorem BuscaCotacaoHandler_success_body_witness :
    (BuscaCotacaoHandler scenarioEnv {} "/cotacao" {}).1.status = some 200 ∧
    parseJSON (BuscaCotacaoHandler scenarioEnv {} "/cotacao" {}).1.body.data
      = some (.str "5.4321") ∧
    (BuscaCotacaoHandler scenarioEnv {} "/cotacao" {}).1.body = "\"5.4321\"" :=
  ⟨(BuscaCotacaoHandler_success_body scenarioEnv {} _ scenarioCotacao BuscaCotacao_scenario).1,
    (BuscaCotacaoHandler_success_body scenarioEnv {} _ scenarioCotacao
      BuscaCotacao_scenario).2.2.2.1,
    (BuscaCotacaoHandler_success_body scenarioEnv {} _ scenarioCotacao
      BuscaCotacao_scenario).2.2.2.2.2 rfl⟩

/-- C2 (the code departs from the claim). On the scenario request, which
succeeds, the only header `BuscaCotacaoHandler` sets is the misspelt
`Contet-Type`: the reply carries no `Content-Type` header at all. -/
theorem BuscaCotacaoHandler_misspelt_header :
    (BuscaCotacaoHandler scenarioEnv {} "/cotacao" {}).1.status = some 200 ∧
    (BuscaCotacaoHandler scenarioEnv {} "/cotacao" {}).1.header
      = [("Contet-Type", "application/json")] ∧
    (BuscaCotacaoHandler scenarioEnv {} "/cotacao" {}).1.Get "Content-Type" = "" ∧
    (BuscaCotacaoHandler scenarioEnv {} "/cotacao" {}).1.Get "Content-Type"
      ≠ "application/json" := by
  have h := BuscaCotacaoHandler_ok scenarioEnv {} _ scenarioCotacao BuscaCotacao_scenario
  rw [h]
  decide

/-- C3. Whenever the request cannot be built, the upstream fetch fails (network
error, unreadable body, body that does not decode) or the insert fails, and in
general whenever `BuscaCotacao` returns an error, `BuscaCotacaoHandler` on the
path `/cotacao` answers with status 500 and an empty body, and not with
status 200. -/
theorem BuscaCotacaoHandler_failure_500 (env : Env) (s : ServerState)
    (h : env.newRequest ≠ none ∨ fetchFails env ∨ env.exec ≠ none ∨
      ∃ err, (BuscaCotacao env s).1 = .error err) :
    (∃ err, (BuscaCotacao env s).1 = .error err) ∧
    (BuscaCotacaoHandler env {} "/cotacao" s).1.status = some StatusInternalServerError ∧
    (BuscaCotacaoHandler env {} "/cotacao" s).1.body = "" ∧
    (BuscaCotacaoHandler env {} "/cotacao" s).1.status ≠ some StatusOK := by
  have herr : ∃ err, (BuscaCotacao env s).1 = .error err := by
    rcases h with h | h | h | h
    · exact BuscaCotacao_error_of_cause env s (Or.inl h)
    · exact BuscaCotacao_error_of_cause env s (Or.inr (Or.inl h))
    · exact BuscaCotacao_error_of_cause env s (Or.inr (Or.inr h))
    · exact h
  refine ⟨herr, ?_⟩
  obtain ⟨err, herr⟩ := herr
  have hb : BuscaCotacao env s = (.error err, (BuscaCotacao env s).2) := by
    rw [← herr]
  rw [BuscaCotacaoHandler_error env s _ err hb]
  exact ⟨rfl, rfl, fun hc => absurd (Option.some.inj hc) (by decide)⟩

theorem BuscaCotacaoHandler_failure_500_witness :
    (∃ err, (BuscaCotacao insertFailsEnv {}).1 = .error err) ∧
    (BuscaCotacaoHandler insertFailsEnv {} "/cotacao" {}).1.status = some 500 ∧
    (BuscaCotacaoHandler insertFailsEnv {} "/cotacao" {}).1.body = "" ∧
    (BuscaCotacaoHandler insertFailsEnv {} "/cotacao" {}).1.status ≠ some 200 :=
  BuscaCotacaoHandler_failure_500 insertFailsEnv {} (Or.inr (Or.inr (Or.inl (by decide))))

/-- C4. When the fetch fails (upstream unreachable, body unreadable, or body not
decodable as JSON), `BuscaCotacao` returns an error, `insertCotacao` is not
called, and the store holds exactly the rows it held before. -/
theorem BuscaCotacao_fetch_failure (env : Env) (s : ServerState) (h : fetchFails env) :
    (∃ err, (BuscaCotacao env s).1 = .error err) ∧
    (BuscaCotacao env s).2.DB = s.DB ∧
    (BuscaCotacao env s).2.execCalls = s.execCalls := by
  unfold fetchFails at h
  unfold BuscaCotacao
  simp only
  split
  · exact ⟨⟨_, rfl⟩, rfl, rfl⟩
  · split
    · exact ⟨⟨_, rfl⟩, rfl, rfl⟩
    · rename_i st body rerr hup
      rw [hup] at h
      simp only at h
      split
      · exact ⟨⟨_, rfl⟩, rfl, rfl⟩
      · rcases h with h | ⟨err, h⟩
        · exact absurd rfl h
        · rw [h]
          exact ⟨⟨_, rfl⟩, rfl, rfl⟩

theorem BuscaCotacao_fetch_failure_witness :
    ((∃ err, (BuscaCotacao unreachableEnv {}).1 = .error err) ∧
      (BuscaCotacao unreachableEnv {}).2.DB = {} ∧
      (BuscaCotacao unreachableEnv {}).2.execCalls = 0) ∧
    Unmarshal "\x7b\"USDBRL\":" {} = .error .SyntaxError ∧
    ((∃ err, (BuscaCotacao { upstream := .response 200 "\x7b\"USDBRL\":" none }
        { DB := { rows := [{ id := 1, json := scenarioBody }], seq := 1 } }).1 = .error err) ∧
      (BuscaCotacao { upstream := .response 200 "\x7b\"USDBRL\":" none }
        { DB := { rows := [{ id := 1, json := scenarioBody }], seq := 1 } }).2.DB
        = { rows := [{ id := 1, json := scenarioBody }], seq := 1 } ∧
      (BuscaCotacao { upstream := .response 200 "\x7b\"USDBRL\":" none }
        { DB := { rows := [{ id := 1, json := scenarioBody }], seq := 1 } }).2.execCalls = 0) :=
  ⟨BuscaCotacao_fetch_failure unreachableEnv {} trivial, rfl,
    BuscaCotacao_fetch_failure { upstream := .response 200 "\x7b\"USDBRL\":" none } _
      (Or.inr ⟨_, rfl⟩)⟩

/-- C5, as stated, fails: the request for `/outro` never reaches
`BuscaCotacaoHandler`. The mux on which `main` registers the handler answers
it with `http.NotFound`, whose body is the text "404 page not found" and a
line feed, so the body of the reply is not empty. (A path that is not in
canonical form, such as `//outro`, is not answered with 404 at all: the mux
redirects it.) -/
theorem ServeHTTP_outro_body_not_empty :
    route "/outro" = .notFound ∧
    (ServeHTTP scenarioEnv "/outro" {}).1.status = some 404 ∧
    (ServeHTTP scenarioEnv "/outro" {}).1.body = some "404 page not found\n" ∧
    (ServeHTTP scenarioEnv "/outro" {}).1.body ≠ some "" ∧
    (ServeHTTP scenarioEnv "//outro" {}).1 = .redirect "/outro" := by
  decide

theorem ServeHTTP_state (env : Env) (path : String) (s : ServerState)
    (h : path ≠ "/cotacao") : (ServeHTTP env path s).2 = s := by
  unfold ServeHTTP
  split
  · rename_i hr
    unfold route at hr
    split_ifs at hr
  · rfl
  · rfl

theorem ServeHTTP_canonical (env : Env) (path : String) (s : ServerState)
    (h : path ≠ "/cotacao") (hc : cleanPath path = path) :
    ServeHTTP env path s = (.reply (NotFound {}), s) := by
  have hr : route path = .notFound := by
    unfold route
    rw [if_neg (by simpa using hc), if_neg h]
  simp only [ServeHTTP, hr]

/-- C5, amended. For every path other than `/cotacao`: `BuscaCotacaoHandler`,
when it is the one called, answers with status 404 and an empty body; the
server as `main` wires it leaves its state as it was, so it makes no upstream
call and writes no row; and when the path is in canonical form the server's
reply is the mux's own: status 404 with the body "404 page not found" and a
line feed. -/
theorem not_cotacao_is_404 (env : Env) (path : String) (s : ServerState)
    (h : path ≠ "/cotacao") :
    ((BuscaCotacaoHandler env {} path s).1.status = some StatusNotFound ∧
      (BuscaCotacaoHandler env {} path s).1.body = "" ∧
      (BuscaCotacaoHandler env {} path s).2 = s) ∧
    ((ServeHTTP env path s).2.upstreamCalls = s.upstreamCalls ∧
      (ServeHTTP env path s).2.execCalls = s.execCalls ∧
      (ServeHTTP env path s).2.DB = s.DB) ∧
    (cleanPath path = path →
      (ServeHTTP env path s).1.status = some StatusNotFound ∧
      (ServeHTTP env path s).1.body = some "404 page not found\n") := by
  refine ⟨?_, ?_, fun hc => ?_⟩
  · have hh : BuscaCotacaoHandler env {} path s = ({ status := some StatusNotFound }, s) := by
      unfold BuscaCotacaoHandler
      rw [if_pos h]
      rfl
    rw [hh]
    exact ⟨rfl, rfl, rfl⟩
  · rw [ServeHTTP_state env path s h]
    exact ⟨rfl, rfl, rfl⟩
  · rw [ServeHTTP_canonical env path s h hc]
    exact ⟨rfl, rfl⟩

theorem not_cotacao_is_404_witness :
    ((BuscaCotacaoHandler scenarioEnv {} "/outro" {}).1.status = some 404 ∧
      (BuscaCotacaoHandler scenarioEnv {} "/outro" {}).1.body = "" ∧
      (BuscaCotacaoHandler scenarioEnv {} "/outro" {}).2 = {}) ∧
    ((ServeHTTP scenarioEnv "/outro" {}).2.upstreamCalls = 0 ∧
      (ServeHTTP scenarioEnv "/outro" {}).2.execCalls = 0 ∧
      (ServeHTTP scenarioEnv "/outro" {}).2.DB = {}) ∧
    (cleanPath "/outro" = "/outro" →
      (ServeHTTP scenarioEnv "/outro" {}).1.status = some 404 ∧
      (ServeHTTP scenarioEnv "/outro" {}).1.body = some "404 page not found\n") :=
  not_cotacao_is_404 scenarioEnv "/outro" {} (by decide)

/-- C6. A successful `CotacaoWriteDB(q)` keeps every row the store had and
appends exactly one, so the row count grows by one; the text of the new row is
what `json.Marshal` writes for `q`, and decoding that text gives back a
`Cotacao` equal to `q`. For the quotation of the scenario the stored text is the
upstream object itself. -/
theorem CotacaoWriteDB_appends_one_row (env : Env) (q : Cotacao) (s : ServerState)
    (h : (CotacaoWriteDB env q s).1 = none) :
    ∃ row : Row,
      (CotacaoWriteDB env q s).2.DB.rows = s.DB.rows ++ [row] ∧
      (CotacaoWriteDB env q s).2.DB.rows.length = s.DB.rows.length + 1 ∧
      Marshal q = .ok row.json ∧
      (∀ c0, Unmarshal row.json c0 = .ok q) ∧
      (q = scenarioCotacao → row.json = scenarioBody) := by
  have hx : env.exec = none := by rw [← CotacaoWriteDB_fst env q s]; exact h
  rw [CotacaoWriteDB_eq env q s _ rfl]
  simp only [insertCotacao, hx]
  refine ⟨_, rfl, by simp [ServerState.println], rfl,
    fun c0 => Unmarshal_Marshal q c0 _ rfl, fun hq => ?_⟩
  subst hq
  rfl

theorem CotacaoWriteDB_appends_one_row_witness :
    (CotacaoWriteDB scenarioEnv scenarioCotacao
        { DB := { rows := [{ id := 7, json := "old" }], seq := 7 } }).1 = none ∧
    ∃ row : Row,
      (CotacaoWriteDB scenarioEnv scenarioCotacao
        { DB := { rows := [{ id := 7, json := "old" }], seq := 7 } }).2.DB.rows
        = [{ id := 7, json := "old" }] ++ [row] ∧
      (CotacaoWriteDB scenarioEnv scenarioCotacao
        { DB := { rows := [{ id := 7, json := "old" }], seq := 7 } }).2.DB.rows.length
        = [({ id := 7, json := "old" } : Row)].length + 1 ∧
      Marshal scenarioCotacao = .ok row.json ∧
      (∀ c0, Unmarshal row.json c0 = .ok scenarioCotacao) ∧
      (scenarioCotacao = scenarioCotacao → row.json = scenarioBody) :=
  ⟨rfl, CotacaoWriteDB_appends_one_row scenarioEnv scenarioCotacao
    { DB := { rows := [{ id := 7, json := "old" }], seq := 7 } } rfl⟩

/-- C7. Let the upstream body be a JSON document that is an object keyed
`USDBRL` whose value is an object with the eleven members code, codein, name,
high, low, varBid, pctChange, bid, ask, timestamp and create_date, in any
order, each a JSON string. Then decoding in `BuscaCotacao` gives a `Cotacao`
whose eleven fields are exactly those strings, and (the store write
succeeding) that is the `Cotacao` `BuscaCotacao` returns. -/
theorem BuscaCotacao_decodes_payload (env : Env) (s : ServerState) (status : Nat)
    (body : String) (ms : List (String × JVal)) (q : Cotacao)
    (hreq : env.newRequest = none)
    (hup : env.upstream = .response status body none)
    (hparse : parseJSON body.data = some (.obj [("USDBRL", .obj ms)]))
    (hms : ms.Perm (payloadMembers q.Usdbrl)) :
    Unmarshal body {} = .ok q ∧
    (env.exec = none → (BuscaCotacao env s).1 = .ok q) := by
  have hun : Unmarshal body {} = .ok q := by
    simp only [Unmarshal, hparse]
    exact valueCotacao_payload q {} ms hms
  refine ⟨hun, fun hx => ?_⟩
  rw [BuscaCotacao_decoded env s status body q hreq hup hun]
  have hw := CotacaoWriteDB_fst env q
    { (s.println (if env.fetchDone then "timeout when processing the request."
        else "processing...")) with upstreamCalls := s.upstreamCalls + 1 }
  rw [hx] at hw
  split
  · rename_i err s2 heq
    rw [heq] at hw
    exact absurd hw (by simp)
  · rfl

theorem BuscaCotacao_decodes_payload_witness :
    parseJSON scenarioBody.data
        = some (.obj [("USDBRL", .obj (payloadMembers scenarioCotacao.Usdbrl))]) ∧
    Unmarshal scenarioBody {} = .ok scenarioCotacao ∧
    (scenarioEnv.exec = none → (BuscaCotacao scenarioEnv {}).1 = .ok scenarioCotacao) :=
  have hp : parseJSON scenarioBody.data
      = some (.obj [("USDBRL", .obj (payloadMembers scenarioCotacao.Usdbrl))]) := by rfl
  ⟨hp, BuscaCotacao_decodes_payload scenarioEnv {} 200 scenarioBody _ scenarioCotacao rfl rfl hp
    (List.Perm.refl _)⟩

/-- C10, as stated, fails: the body is a well-formed JSON object with a single
member, named `usdbrl`, so it has no member named `USDBRL`; the decoder matches
keys to tags without regard to case, the fetch returns a `Cotacao` whose bid
is `1.05`, not the empty string, and the handler's body is `"1.05"`. -/
theorem lower_case_key_is_decoded :
    parseJSON "\x7b\"usdbrl\":\x7b\"bid\":\"1.05\"\x7d\x7d".data
      = some (.obj [("usdbrl", .obj [("bid", .str "1.05")])]) ∧
    "usdbrl" ≠ "USDBRL" ∧
    (BuscaCotacao lowerCaseEnv {}).1 = .ok { Usdbrl := { Bid := "1.05" } } ∧
    (BuscaCotacao lowerCaseEnv {}).1 ≠ .ok {} ∧
    (BuscaCotacaoHandler lowerCaseEnv {} "/cotacao" {}).1.body = "\"1.05\"" ∧
    (BuscaCotacaoHandler lowerCaseEnv {} "/cotacao" {}).1.body ≠ "\"\"" := by
  refine ⟨by rfl, by decide, by rfl, ?_, by rfl, ?_⟩
  · have h : (BuscaCotacao lowerCaseEnv {}).1 = .ok { Usdbrl := { Bid := "1.05" } } := by rfl
    rw [h]
    intro hc
    exact absurd (Except.ok.inj hc) (by decide)
  · have h : (BuscaCotacaoHandler lowerCaseEnv {} "/cotacao" {}).1.body = "\"1.05\"" := by rfl
    rw [h]
    decide

/-- C10, amended. `BuscaCotacao` does not look at the upstream status code.
When the upstream body is a well-formed JSON object none of whose member names
matches `USDBRL`, with or without regard to case, and the store write succeeds,
the fetch returns the `Cotacao` whose eleven fields are all empty, exactly one
row is written (the encoding of that `Cotacao`), and `BuscaCotacaoHandler`
answers with status 200 and the body `""`, an empty JSON string. -/
theorem BuscaCotacao_without_usdbrl (env : Env) (s : ServerState) (status : Nat)
    (body : String) (ms : List (String × JVal))
    (hreq : env.newRequest = none)
    (hup : env.upstream = .response status body none)
    (hparse : parseJSON body.data = some (.obj ms))
    (hkeys : ∀ m ∈ ms, matchesUsdbrl m.1 = false)
    (hx : env.exec = none) :
    (BuscaCotacao env s).1 = .ok {} ∧
    (BuscaCotacao env s).2.DB.rows = s.DB.rows ++ [{ id := s.DB.seq + 1, json := zeroJson }] ∧
    (BuscaCotacaoHandler env {} "/cotacao" s).1.status = some StatusOK ∧
    (BuscaCotacaoHandler env {} "/cotacao" s).1.body = "\"\"" := by
  have hun : Unmarshal body {} = .ok {} := by
    simp only [Unmarshal, hparse, valueCotacao]
    exact objectCotacao_unmatched ms {} hkeys
  have hb : ∃ s2, BuscaCotacao env s = (.ok {}, s2) ∧
      s2.DB.rows = s.DB.rows ++ [{ id := s.DB.seq + 1, json := zeroJson }] := by
    rw [BuscaCotacao_decoded env s status body {} hreq hup hun,
      CotacaoWriteDB_eq env {} _ _ rfl, hx]
    exact ⟨_, rfl, rfl⟩
  obtain ⟨s2, hb1, hb2⟩ := hb
  rw [BuscaCotacaoHandler_ok env s s2 {} hb1, hb1]
  exact ⟨rfl, hb2, rfl, rfl⟩

theorem BuscaCotacao_without_usdbrl_witness :
    (BuscaCotacao errorObjectEnv {}).1 = .ok {} ∧
    (BuscaCotacao errorObjectEnv {}).2.DB.rows
      = ([] : List Row) ++ [{ id := 0 + 1, json := zeroJson }] ∧
    (BuscaCotacaoHandler errorObjectEnv {} "/cotacao" {}).1.status = some 200 ∧
    (BuscaCotacaoHandler errorObjectEnv {} "/cotacao" {}).1.body = "\"\"" :=
  BuscaCotacao_without_usdbrl errorObjectEnv {} 500 _
    [("status", .num ['5', '0', '0']), ("message", .str "upstream down")] rfl rfl (by rfl)
    (by decide) rfl

namespace Client

/-- C8. When every step of the client succeeds and the response body is `b`,
the run returns normally and `cotacao.txt` holds exactly the bytes of
`Dólar: ` followed by the bytes of `b`, whatever the file held before. For the
body `"5.4321"`, quotes included, the file is exactly `Dólar: "5.4321"`. -/
theorem main_writes_file (env : Env) (m : Machine) (status : Nat) (b : Bytes)
    (hreq : env.newRequest = none)
    (hreply : env.reply = .response status b none)
    (hcreate : env.create = none)
    (hwrite : env.write = none) :
    (main env m).1 = .returned ∧
    (main env m).2.file = some (utf8 "Dólar: " ++ b) ∧
    (b = utf8 "\"5.4321\"" → (main env m).2.file = some (utf8 "Dólar: \"5.4321\"")) := by
  have h : main env m = (.returned, { m with file := some (utf8 "Dólar: " ++ b) }) := by
    simp only [main, hreq, hreply, hcreate, hwrite]
  rw [h]
  refine ⟨rfl, rfl, fun hb => ?_⟩
  subst hb
  show some (utf8 "Dólar: " ++ utf8 "\"5.4321\"") = some (utf8 "Dólar: \"5.4321\"")
  decide

theorem main_writes_file_witness :
    (main { reply := .response 200 (utf8 "\"5.4321\"") none }
        { file := some (utf8 "older content, longer than the new one") }).1 = .returned ∧
    (main { reply := .response 200 (utf8 "\"5.4321\"") none }
        { file := some (utf8 "older content, longer than the new one") }).2.file
      = some (utf8 "Dólar: " ++ utf8 "\"5.4321\"") ∧
    (utf8 "\"5.4321\"" = utf8 "\"5.4321\"" →
      (main { reply := .response 200 (utf8 "\"5.4321\"") none }
        { file := some (utf8 "older content, longer than the new one") }).2.file
      = some (utf8 "Dólar: \"5.4321\"")) :=
  main_writes_file { reply := .response 200 (utf8 "\"5.4321\"") none } _ 200 _ rfl rfl rfl rfl

/-- C9 (the code departs from the claim). When `http.DefaultClient.Do` fails,
the client logs the error and then panics on the nil response: the run does
not return normally, `os.Create` is never reached, and `cotacao.txt` is left
as it was, absent if it was absent. -/
theorem main_panics_when_do_fails (err : GoError) (m : Machine) :
    (main { reply := .failed err } m).1 = .panicked ∧
    (main { reply := .failed err } m).2.file = m.file ∧
    (main { reply := .failed err } m).2.log = m.log ++ [err.Error] ∧
    (main { reply := .failed (.other "connection refused") } {}).2.file = none :=
  ⟨rfl, rfl, rfl, rfl⟩

end Client

end Desafio
